import Mathlib

/-!
Verification development for the rendering core of a static-site generator
(components `rendering/src/markdown.rs`, `config/src/config/markup.rs`,
`config/src/highlighting.rs`).

The Rust sources are shallowly embedded as executable Lean definitions:
  * strings are Lean `String`s (byte offsets are treated as character offsets;
    all concrete inputs used here are ASCII so the two coincide);
  * `pulldown_cmark` events are a closed inductive type `Event`;
  * Rust `Vec` stacks are Lean lists whose *head* is the stack top;
  * machine integers that can overflow are modelled with explicit `% 2 ^ w`
    (the `u16` counter of `find_anchor`);
  * partial operations (`unwrap`, out-of-bounds slicing, unbounded loops)
    return `Option`, with `none` for a panic / non-termination;
  * external collaborators (template engine, highlighter, emoji filter,
    slugifier) are passed in as function parameters, as the specification
    declares them out of scope.
-/

namespace Zola

/-- Rust `str::starts_with`, on the character level. -/
def strStartsWith (s p : String) : Bool := p.data.isPrefixOf s.data

/-- Decimal digit list of `n`, most significant first; `fuel` bounds the
recursion (any `fuel > n` is enough). Models Rust's `format!("{}", n)`. -/
def decReprAux : Nat → Nat → List Char
  | 0, _ => []
  | fuel+1, n =>
    if n < 10 then [Nat.digitChar n]
    else decReprAux fuel (n / 10) ++ [Nat.digitChar (n % 10)]

/-- Decimal string representation of a natural number. -/
def decRepr (n : Nat) : String := ⟨decReprAux (n + 1) n⟩

/-- Left inverse of `decReprAux`: read a digit string back as a number. -/
def fromDec (l : List Char) : Nat := l.foldl (fun acc c => 10 * acc + (c.toNat - 48)) 0

/-- The anchor candidate tried for counter value `k`:
Rust `format!("{}-{}", name, k)`. -/
def anchorVariant (name : String) (k : Nat) : String := name ++ "-" ++ decRepr k

/-- `find_anchor` (markdown.rs:50-61), with the Rust `u16` counter modelled by
values below `2 ^ 16` and wrap-around addition (release-mode overflow
semantics), and with explicit recursion fuel: `none` means the fuel ran out —
in particular, if the result is `none` for *every* fuel then the Rust loop
never returns (it cycles through the 2^16 counter values forever). -/
def findAnchorF (anchors : List String) (name : String) : Nat → Nat → Option String
  | 0, _ => none
  | fuel+1, level =>
    if level = 0 && !(anchors.contains name) then some name
    else
      let newAnchor := anchorVariant name ((level + 1) % 65536)
      if !(anchors.contains newAnchor) then some newAnchor
      else findAnchorF anchors name fuel ((level + 1) % 65536)

/-- Fuel that is always sufficient when the Rust recursion terminates at all
(see `findAnchor_total_of_small`): one step per counter value that can ever be
tried, plus slack. -/
def findAnchorFuel (anchors : List String) : Nat := anchors.length + 65538

/-- `find_anchor` as called by the second heading pass (counter starts at 0). -/
def findAnchor (anchors : List String) (name : String) : Option String :=
  findAnchorF anchors name (findAnchorFuel anchors) 0

/-- `find_anchor` terminates (returns at some fuel) on the given inputs,
starting from counter 0 as both call sites do. -/
def findAnchorTerminates (anchors : List String) (name : String) : Prop :=
  ∃ fuel s, findAnchorF anchors name fuel 0 = some s

/-- A used-id list holding the name together with all 65536 possible `u16`
counter variants `name-0 … name-65535`. -/
def badAnchors (name : String) : List String :=
  name :: (List.range 65536).map (anchorVariant name)

/-- `pulldown_cmark::LinkType`; only `Email` is inspected by the code, the
remaining variants are interchangeable for it. -/
inductive LinkType where
  | inline
  | reference
  | autolink
  | email
deriving DecidableEq, Repr

/-- The `pulldown_cmark::Tag` variants the transformer matches on; every tag
kind it never inspects is collapsed into `other`. -/
inductive Tag where
  | heading (level : Nat)
  | paragraph
  | link (linkType : LinkType) (url : String) (title : String)
  | codeBlock (info : String)
  | other
deriving DecidableEq, Repr

/-- The `pulldown_cmark::Event` variants the transformer matches on (`endTag`
stands for `Event::End`); event kinds it never inspects are `otherEvent`. -/
inductive Event where
  | text (s : String)
  | html (s : String)
  | start (t : Tag)
  | endTag (t : Tag)
  | code (s : String)
  | otherEvent
deriving DecidableEq, Repr

/-- `config::SectionTagsMode`. -/
inductive SectionTagsMode where
  | hierarchical
  | flat
deriving DecidableEq, Repr

/-- `front_matter::InsertAnchor`. -/
inductive InsertAnchor where
  | left
  | right
  | none
deriving DecidableEq, Repr

/-- The `Markdown` configuration section (config/src/config/markup.rs:16-40),
restricted to the fields the embedded code reads. The directory lists
`extra_syntaxes` / `extra_highlight_themes` only drive I/O loading, whose
results are passed separately, and `render_with_section_tags` is read by
markdown.rs:490. -/
structure Markdown where
  highlight_code : Bool
  highlight_theme : String
  render_emoji : Bool
  external_links_target_blank : Bool
  external_links_no_follow : Bool
  external_links_no_referrer : Bool
  smart_punctuation : Bool
  render_with_section_tags : Option SectionTagsMode
deriving DecidableEq, Repr

/-- `Markdown::has_external_link_tweaks` (markup.rs:115-119). -/
def Markdown.hasExternalLinkTweaks (m : Markdown) : Bool :=
  m.external_links_target_blank || m.external_links_no_follow || m.external_links_no_referrer

/-- `Markdown::construct_external_link_tag` (markup.rs:121-144). -/
def Markdown.constructExternalLinkTag (m : Markdown) (url : String) (title : String) : String :=
  let rel_opts : List String :=
    (if m.external_links_target_blank then ["noopener"] else []) ++
    (if m.external_links_no_follow then ["nofollow"] else []) ++
    (if m.external_links_no_referrer then ["noreferrer"] else [])
  let target : String := if m.external_links_target_blank then "target=\"_blank\" " else ""
  let title' : String := if title.isEmpty then "" else "title=\"" ++ title ++ "\" "
  let rel : String :=
    if rel_opts.isEmpty then "" else "rel=\"" ++ String.intercalate " " rel_opts ++ "\" "
  "<a " ++ rel ++ target ++ title' ++ "href=\"" ++ url ++ "\">"

/-- The anchor-tag format exactly as the specification words it: a literal
`<a ` then the optional attribute groups rel, target, title in this fixed
order, each omitted entirely when not applicable, then the href; the rel value
space-joins `noopener` (present iff target-blank is set), `nofollow`,
`noreferrer` in that order. Written from the spec for comparison with
`Markdown.constructExternalLinkTag`. -/
def externalLinkTagSpec (m : Markdown) (url : String) (title : String) : String :=
  let clauses : List String :=
    (if m.external_links_target_blank then ["noopener"] else []) ++
    (if m.external_links_no_follow then ["nofollow"] else []) ++
    (if m.external_links_no_referrer then ["noreferrer"] else [])
  "<a " ++
  (if clauses = [] then "" else "rel=\"" ++ String.intercalate " " clauses ++ "\" ") ++
  (if m.external_links_target_blank then "target=\"_blank\" " else "") ++
  (if title = "" then "" else "title=\"" ++ title ++ "\" ") ++
  "href=\"" ++ url ++ "\">"

/-- The slice of `RenderContext` (rendering/src/context.rs, reached only
through its fields) that the embedded code reads; the template engine handles
(`tera`, `tera_context`) are replaced by explicit function parameters at the
call sites. -/
structure RenderContext where
  permalinks : List (String × String)
  currentPagePath : Option String
  currentPagePermalink : String
  markdown : Markdown
  insertAnchor : InsertAnchor
  lang : String

/-- `is_external_link` (markdown.rs:64-66). -/
def isExternalLink (link : String) : Bool :=
  strStartsWith link "http:" || strStartsWith link "https:"

/-- Result record of the internal-link resolver. -/
structure ResolvedInternalLink where
  permalink : String
  md_path : String
  anchor : Option String
deriving DecidableEq, Repr

/-- Modelled from the spec: `utils::site::resolve_internal_link`, whose source
is not part of this repository. Per the spec, an internal reference
`@/document-path#anchor` is split into the document path and the optional
anchor, the path is resolved against the permalink table (document key →
canonical URL), failure is reported to the caller, and the canonical URL keeps
the anchor as a fragment. -/
def resolveInternalLink (link : String) (permalinks : List (String × String)) :
    Option ResolvedInternalLink :=
  let stripped : List Char := link.data.drop 2
  let mdPath : String := ⟨stripped.takeWhile (· ≠ '#')⟩
  let anchor : Option String :=
    match stripped.dropWhile (· ≠ '#') with
    | [] => Option.none
    | _ :: rest => some ⟨rest⟩
  match permalinks.lookup mdPath with
  | Option.none => Option.none
  | some permalink =>
    some { permalink := match anchor with
             | Option.none => permalink
             | some a => permalink ++ "#" ++ a
           md_path := mdPath
           anchor := anchor }

/-- `fix_link` (markdown.rs:68-111). The Rust function pushes into two
caller-owned inventories; the model threads them through and returns the
updated lists together with the rewritten link. -/
def fixLink (linkType : LinkType) (link : String) (context : RenderContext)
    (internal_links : List (String × Option String)) (external_links : List String) :
    Except String (String × List (String × Option String) × List String) :=
  if linkType = LinkType.email then .ok (link, internal_links, external_links)
  else if strStartsWith link "@/" then
    match resolveInternalLink link context.permalinks with
    | some resolved =>
      .ok (resolved.permalink,
        internal_links ++ [(resolved.md_path, resolved.anchor)], external_links)
    | Option.none => .error ("Relative link " ++ link ++ " not found.")
  else if isExternalLink link then
    .ok (link, internal_links, external_links ++ [link])
  else if strStartsWith link "#" then
    match context.currentPagePath with
    | some currentPath =>
      .ok (context.currentPagePermalink ++ link,
        internal_links ++ [(currentPath, some (⟨link.data.drop 1⟩ : String))], external_links)
    | Option.none => .ok (link, internal_links, external_links)
  else .ok (link, internal_links, external_links)

/-- First index at which `needle` occurs in `hay`, starting the count at `i`:
Rust `str::find` over characters. -/
def findSubstrAux (needle : List Char) : List Char → Nat → Option Nat
  | [], i => if needle = [] then some i else Option.none
  | c :: rest, i =>
    if needle.isPrefixOf (c :: rest) then some i else findSubstrAux needle rest (i + 1)

/-- Rust `str::find(needle)`. -/
def findSubstr (hay needle : String) : Option Nat := findSubstrAux needle.data hay.data 0

/-- Rust `str::contains(needle)`. -/
def containsSub (hay needle : String) : Bool := (findSubstr hay needle).isSome

/-- Rust `str::trim` on the character level. -/
def trimChars (l : List Char) : List Char :=
  ((l.dropWhile Char.isWhitespace).reverse.dropWhile Char.isWhitespace).reverse

/-- Rust slice `s[..k]`: `none` models the panic when `k` is out of bounds. -/
def sliceTo (s : String) (k : Nat) : Option String :=
  if k ≤ s.data.length then some ⟨s.data.take k⟩ else Option.none

/-- Rust slice `s[k..]`: `none` models the panic when `k` is out of bounds. -/
def sliceFrom (s : String) (k : Nat) : Option String :=
  if k ≤ s.data.length then some ⟨s.data.drop k⟩ else Option.none

/-- Rust slice `s[a..b]`: `none` models the panic when the range is invalid. -/
def sliceRange (s : String) (a b : Nat) : Option String :=
  if a ≤ b ∧ b ≤ s.data.length then some ⟨(s.data.drop a).take (b - a)⟩ else Option.none

/-- The while loop of `make_hierarchical_sections`' lower-level branch
(markdown.rs:177-181): keep closing sections while the stack top differs from
the incoming heading level; `level_stack.last().unwrap()` on an emptied stack
is a panic, modelled as `none`. The list's head is the Rust `Vec`'s last
element (the stack top). -/
def closeSections (heading_level : Nat) (pos : Nat) :
    List Nat → List Event → Nat → Option (List Event × List Nat × Nat)
  | [], _, _ => Option.none
  | top :: rest, events, items_added =>
    if top ≠ heading_level then
      closeSections heading_level pos rest
        (events.insertIdx (pos + items_added) (Event.html "</section>")) (items_added + 1)
    else some (events, top :: rest, items_added)

/-- The per-event loop of `make_hierarchical_sections` (markdown.rs:158-201):
`n` indexes the cloned original vector being iterated, `events` is the vector
receiving the insertions, `items_added` the running offset. -/
def hierLoop : List Event → Nat → List Event → List Nat → Nat →
    Option (List Event × List Nat × Nat)
  | [], _, events, stack, adds => some (events, stack, adds)
  | e :: rest, n, events, stack, adds =>
    match e with
    | Event.start (Tag.heading heading_level) =>
      match stack with
      | [] =>
        hierLoop rest (n + 1) (events.insertIdx (n + adds) (Event.html "<section>"))
          (heading_level :: []) (adds + 1)
      | top :: stackRest =>
        if heading_level = top then
          hierLoop rest (n + 1)
            (events.insertIdx (n + adds) (Event.html "</section><section>"))
            (top :: stackRest) (adds + 1)
        else if heading_level < top then
          match closeSections heading_level n (top :: stackRest) events adds with
          | Option.none => Option.none
          | some (events₁, stack₁, adds₁) =>
            hierLoop rest (n + 1)
              ((events₁.insertIdx (n + adds₁) (Event.html "</section>")).insertIdx
                (n + adds₁ + 1) (Event.html "<section>"))
              (heading_level :: stack₁.tail) (adds₁ + 2)
        else
          hierLoop rest (n + 1) (events.insertIdx (n + adds) (Event.html "<section>"))
            (heading_level :: top :: stackRest) (adds + 1)
    | _ => hierLoop rest (n + 1) events stack adds

/-- `make_hierarchical_sections` (markdown.rs:151-208); `none` models the
`unwrap` panic on an emptied level stack. -/
def makeHierarchicalSections (events : List Event) : Option (List Event) :=
  match hierLoop events 0 events [] 0 with
  | Option.none => Option.none
  | some (out, stack, _) => some (out ++ stack.map (fun _ => Event.html "</section>"))

/-- The per-event loop of `make_flat_sections` (markdown.rs:221-235). -/
def flatLoop : List Event → Nat → List Event → Bool → Nat → List Event × Bool
  | [], _, events, in_section, _ => (events, in_section)
  | e :: rest, n, events, in_section, adds =>
    match e with
    | Event.start (Tag.heading _) =>
      if !in_section then
        flatLoop rest (n + 1) (events.insertIdx (n + adds) (Event.html "<section>")) true (adds + 1)
      else
        flatLoop rest (n + 1)
          (events.insertIdx (n + adds) (Event.html "</section><section>")) in_section (adds + 1)
    | _ => flatLoop rest (n + 1) events in_section adds

/-- `make_flat_sections` (markdown.rs:215-240). -/
def makeFlatSections (events : List Event) : List Event :=
  match flatLoop events 0 events false 0 with
  | (out, in_section) => if in_section then out ++ [Event.html "</section>"] else out

/-- Number of opening `<section>` markers contributed by the inserted fragments
(`"</section><section>"` holds one open and one close). -/
def sectionOpens (events : List Event) : Nat :=
  events.foldl (fun acc e =>
    match e with
    | Event.html s =>
      if s = "<section>" then acc + 1
      else if s = "</section><section>" then acc + 1
      else acc
    | _ => acc) 0

/-- Number of closing `</section>` markers contributed by the inserted
fragments. -/
def sectionCloses (events : List Event) : Nat :=
  events.foldl (fun acc e =>
    match e with
    | Event.html s =>
      if s = "</section>" then acc + 1
      else if s = "</section><section>" then acc + 1
      else acc
    | _ => acc) 0

/-- Tracks a heading in the event slice (markdown.rs:32-44). -/
structure HeadingRef where
  start_idx : Nat
  end_idx : Nat
  level : Nat
  id : Option String
deriving DecidableEq, Repr

/-- `HeadingRef::new` (markdown.rs:41-43). -/
def HeadingRef.new (start level : Nat) : HeadingRef :=
  { start_idx := start, end_idx := 0, level := level, id := Option.none }

/-- The loop of `get_heading_refs` (markdown.rs:127-143); `none` models the
`expect("Heading end before start?")` panic. The accumulator is kept in the
Rust order (`last_mut` mutates its final element). -/
def getHeadingRefsAux : List Event → Nat → List HeadingRef → Option (List HeadingRef)
  | [], _, acc => some acc
  | e :: rest, i, acc =>
    match e with
    | Event.start (Tag.heading level) =>
      getHeadingRefsAux rest (i + 1) (acc ++ [HeadingRef.new i level])
    | Event.endTag (Tag.heading _) =>
      match acc.getLast? with
      | Option.none => Option.none
      | some last => getHeadingRefsAux rest (i + 1) (acc.dropLast ++ [{ last with end_idx := i }])
    | _ => getHeadingRefsAux rest (i + 1) acc

/-- `get_heading_refs` (markdown.rs:127-143). -/
def getHeadingRefs (events : List Event) : Option (List HeadingRef) :=
  getHeadingRefsAux events 0 []

/-- Checker for the parser guarantee the heading passes assume: heading start
and end events strictly alternate, starting with a start and ending with an
end (`inside` tracks being between a start and its end). -/
def headingsWellFormedAux : List Event → Bool → Bool
  | [], inside => !inside
  | e :: rest, inside =>
    match e with
    | Event.start (Tag.heading _) =>
      if inside then false else headingsWellFormedAux rest true
    | Event.endTag (Tag.heading _) =>
      if inside then headingsWellFormedAux rest false else false
    | _ => headingsWellFormedAux rest inside

/-- Parser well-formedness of heading events for a whole event sequence. -/
def headingsWellFormed (events : List Event) : Bool := headingsWellFormedAux events false

/-- Indices (counting from `i`) of the heading-start events of the sequence. -/
def headingStartIndices : List Event → Nat → List Nat
  | [], _ => []
  | e :: rest, i =>
    match e with
    | Event.start (Tag.heading _) => i :: headingStartIndices rest (i + 1)
    | _ => headingStartIndices rest (i + 1)

/-- A pending shortcode call: the fields of `shortcode::Shortcode` this code
reads are the byte span `[spanStart, spanEnd)` in the source; rendering is an
external template-engine capability and is passed as a function. `name`
identifies the call in concrete examples. -/
structure Shortcode where
  name : String
  spanStart : Nat
  spanEnd : Nat
deriving DecidableEq, Repr

/-- The placeholder token the shortcode front-end leaves in the source text
(constant of the shortcode component, whose source is not in the repository);
its exact value is irrelevant to every property proved here. -/
def SHORTCODE_PLACEHOLDER : String := "@@ZOLA_SC_PLACEHOLDER@@"

/-- `contains_shortcode` (markdown.rs:284). -/
def containsShortcode (txt : String) : Bool := containsSub txt SHORTCODE_PLACEHOLDER

/-- The interpolation loop shared by the `Text` arm (markdown.rs:308-345) and
the `Html` arm (markdown.rs:438-472); `mk` is the event constructor the arm
uses for text fragments (`Event::Text` resp. `Event::Html`), `render` the
external template engine.

State mirrored from the Rust loop: `range` is the fragment's source range
(only its start is ever updated — by `range.start = sc_span.end - range.start`,
exactly as written at markdown.rs:329/457), `new_text` the remaining fragment
text, `next` the `next_shortcode` variable, `stack` the remaining calls in
source order (the Rust code reversed the vector and pops its end, so popping
is taking this list's head), `events` the output vector, `error` the
transformer's error slot. `none` models an out-of-bounds slice panic. The
final push of the remaining text (markdown.rs:345/472) is included. -/
def renderShortcodes (mk : String → Event) (render : Shortcode → Except String String)
    (range : Nat × Nat) (new_text : String) (next : Option Shortcode)
    (stack : List Shortcode) (events : List Event) (error : Option String) :
    Option (List Event × Option Shortcode × List Shortcode × Option String) :=
  match next with
  | Option.none => some (events ++ [mk new_text], Option.none, stack, error)
  | some shortcode =>
    if range.1 ≤ shortcode.spanStart ∧ shortcode.spanStart < range.2 then
      let prefixPushed : Option (List Event) :=
        if range.1 ≠ shortcode.spanStart then
          match sliceTo new_text (shortcode.spanStart - range.1) with
          | Option.none => Option.none
          | some p => some (events ++ [mk p])
        else some events
      match prefixPushed with
      | Option.none => Option.none
      | some events₁ =>
        match render shortcode with
        | Except.ok s =>
          match sliceFrom new_text (shortcode.spanEnd - range.1) with
          | Option.none => Option.none
          | some rest =>
            renderShortcodes mk render (shortcode.spanEnd - range.1, range.2) rest
              stack.head? stack.tail (events₁ ++ [Event.html s]) error
        | Except.error e =>
          some (events₁ ++ [mk new_text], Option.none, stack, some e)
    else some (events ++ [mk new_text], next, stack, error)
termination_by next.toList.length + stack.length
decreasing_by cases stack <;> simp

/-- The transformer's mutable state across the single forward pass of
`markdown_to_html` (markdown.rs:256-284): output vector, error slot, open
code block, the two link inventories, the paragraph-suppression flag, the
summary flag and the shortcode cursor. -/
structure LoopState where
  events : List Event
  error : Option String
  code_block : Bool
  internal_links : List (String × Option String)
  external_links : List String
  stop_next_end_p : Bool
  has_summary : Bool
  next_shortcode : Option Shortcode
  html_shortcodes : List Shortcode
deriving Repr

/-- The external collaborators of one render call, per spec §1/§6: the
syntax highlighter, the emoji filter, the template engine (shortcode and
anchor-link rendering), the slugifier and the href escaper. -/
structure Externals where
  highlight : String → String
  codeBlockBegin : String → String
  emoji : String → String
  renderShortcode : Shortcode → Except String String
  slugify : String → String
  anchorTemplate : String → Nat → String → Except String String
  escapeHref : String → String

/-- `<span id="continue-reading"></span>` (markdown.rs:17). -/
def CONTINUE_READING : String := "<span id=\"continue-reading\"></span>"

/-- One iteration of the transformer's event loop (the big `match` of
markdown.rs:290-475), for the event `ev` with source range `range`. `none`
models a panic inside the iteration. -/
def processEvent (ext : Externals) (context : RenderContext) (content : String)
    (s : LoopState) (ev : Event) (range : Nat × Nat) : Option LoopState :=
  match ev with
  | Event.text text =>
    if s.code_block then
      some { s with events := s.events ++ [Event.html (ext.highlight text)] }
    else
      let text₁ := if context.markdown.render_emoji then ext.emoji text else text
      if !containsShortcode text₁ then
        some { s with events := s.events ++ [Event.text text₁] }
      else
        match renderShortcodes Event.text ext.renderShortcode range text₁
            s.next_shortcode s.html_shortcodes s.events s.error with
        | Option.none => Option.none
        | some (events', next', stack', error') =>
          some { s with events := events'
                        next_shortcode := next'
                        html_shortcodes := stack'
                        error := error' }
  | Event.start (Tag.codeBlock info) =>
    some { s with code_block := true
                  events := s.events ++ [Event.html (ext.codeBlockBegin info)] }
  | Event.endTag (Tag.codeBlock _) =>
    some { s with code_block := false
                  events := s.events ++ [Event.html "</code></pre>\n"] }
  | Event.start (Tag.link link_type link title) =>
    if link = "" then
      some { s with error := some "There is a link that is missing a URL"
                    events := s.events ++ [Event.start (Tag.link link_type "#" title)] }
    else
      match fixLink link_type link context s.internal_links s.external_links with
      | Except.error err =>
        some { s with error := some err, events := s.events ++ [Event.html ""] }
      | Except.ok (fixed_link, internal', external') =>
        some { s with internal_links := internal'
                      external_links := external'
                      events := s.events ++
                        [if isExternalLink link && context.markdown.hasExternalLinkTweaks then
                           Event.html (context.markdown.constructExternalLinkTag
                             (ext.escapeHref link) title)
                         else Event.start (Tag.link link_type fixed_link title)] }
  | Event.start Tag.paragraph =>
    match s.next_shortcode with
    | some sc =>
      if sc.spanStart = range.1 then
        match sliceRange content range.1 range.2 with
        | Option.none => Option.none
        | some frag =>
          if sc.spanEnd - sc.spanStart = (trimChars frag.data).length then
            some { s with stop_next_end_p := true, events := s.events ++ [Event.html ""] }
          else some { s with events := s.events ++ [ev] }
      else some { s with events := s.events ++ [ev] }
    | Option.none => some { s with events := s.events ++ [ev] }
  | Event.endTag Tag.paragraph =>
    if s.stop_next_end_p then
      some { s with stop_next_end_p := false, events := s.events ++ [Event.html ""] }
    else some { s with events := s.events ++ [ev] }
  | Event.html text =>
    if containsSub text "<!-- more -->" then
      some { s with has_summary := true
                    events := s.events ++ [Event.html CONTINUE_READING] }
    else if !containsShortcode text then
      some { s with events := s.events ++ [Event.html text] }
    else
      match renderShortcodes Event.html ext.renderShortcode range text
          s.next_shortcode s.html_shortcodes s.events s.error with
      | Option.none => Option.none
      | some (events', next', stack', error') =>
        some { s with events := events'
                      next_shortcode := next'
                      html_shortcodes := stack'
                      error := error' }
  | _ => some { s with events := s.events ++ [ev] }

/-- The whole forward pass: fold `processEvent` over the parser's output
(event, source-range) sequence. -/
def processEvents (ext : Externals) (context : RenderContext) (content : String) :
    List (Event × Nat × Nat) → LoopState → Option LoopState
  | [], s => some s
  | (e, a, b) :: rest, s =>
    match processEvent ext context content s e (a, b) with
    | Option.none => Option.none
    | some s' => processEvents ext context content rest s'

/-- The cleanup filter after the pass (markdown.rs:479-485). -/
def cleanupEvents (events : List Event) : List Event :=
  events.filter (fun e =>
    match e with
    | Event.text t => !(t = "")
    | Event.html t => !(t = "")
    | _ => true)

/-- `get_text` (markdown.rs:113-125). -/
def getText (parser_slice : List Event) : String :=
  parser_slice.foldl (fun title e =>
    match e with
    | Event.text t => title ++ t
    | Event.code t => title ++ t
    | _ => title) ""

/-- The `while i > 0 && text.as_bytes()[i - 1] == b' '` loop of the
explicit-id pass (markdown.rs:509-511): back `i` up over spaces. -/
def backtrackSpaces (text : List Char) : Nat → Nat
  | 0 => 0
  | j + 1 => if text.get? j = some ' ' then backtrackSpaces text j else j + 1

/-- One heading of the explicit-id pass (markdown.rs:502-517): inspect the
text event right before the heading's end for a trailing literal-id marker
(an open brace, a hash, the id, a closing brace), record the id, strip the
marker and the spaces before it from the visible text. `none` models the
panic when `end_idx - 1` is not a valid index (underflow or out of bounds). -/
def explicitIdStep (events : List Event) (anchors : List String) (ref : HeadingRef) :
    Option (List Event × List String × HeadingRef) :=
  if ref.end_idx = 0 then Option.none
  else
    match events.get? (ref.end_idx - 1) with
    | Option.none => Option.none
    | some (Event.text text) =>
      if text.data.getLast? = some '\x7d' then
        match findSubstr text "\x7b#" with
        | some i =>
          let id : String := ⟨(text.data.drop (i + 2)).take (text.data.length - 1 - (i + 2))⟩
          let i' := backtrackSpaces text.data i
          some (events.set (ref.end_idx - 1) (Event.text ⟨text.data.take i'⟩),
            anchors ++ [id], { ref with id := some id })
        | Option.none => some (events, anchors, ref)
      else some (events, anchors, ref)
    | some _ => some (events, anchors, ref)

/-- The first heading pass (markdown.rs:500-517): reserve every manually
specified id before any id is auto-generated. -/
def explicitIdPass : List HeadingRef → List Event → List String →
    Option (List HeadingRef × List Event × List String)
  | [], events, anchors => some ([], events, anchors)
  | ref :: rest, events, anchors =>
    match explicitIdStep events anchors ref with
    | Option.none => Option.none
    | some (events', anchors', ref') =>
      match explicitIdPass rest events' anchors' with
      | Option.none => Option.none
      | some (rest', events'', anchors'') => some (ref' :: rest', events'', anchors'')

/-- A table-of-contents entry (rendering/src/table_of_contents.rs, reached
through `Heading { … }` at markdown.rs:562-563); the later assembly into a
tree (`make_table_of_contents`) is outside the sources and the flat document
order list is kept. -/
structure Heading where
  level : Nat
  id : String
  permalink : String
  title : String
deriving DecidableEq, Repr

/-- Outcome of a pipeline stage: `panicked` models a Rust panic or a
non-terminating loop, `failed` an early `return Err(_)`, `ok` a value. -/
inductive RunResult (α : Type) where
  | panicked
  | failed (e : String)
  | ok (a : α)
deriving DecidableEq, Repr

/-- The second heading pass (markdown.rs:519-565): auto-generate the missing
ids, rewrite each heading's opening tag, queue anchor-link insertions
(failure of the anchor template is an early error return), and record the
flat table-of-contents entries. -/
def pass2 (ext : Externals) (context : RenderContext) :
    List HeadingRef → List Event → List String → List (Nat × Event) → List Heading →
    RunResult (List Event × List String × List (Nat × Event) × List Heading)
  | [], events, anchors, inserts, headings => .ok (events, anchors, inserts, headings)
  | ref :: rest, events, anchors, inserts, headings =>
    if ref.start_idx + 1 ≤ ref.end_idx ∧ ref.end_idx ≤ events.length then
      let title := getText ((events.drop (ref.start_idx + 1)).take (ref.end_idx - (ref.start_idx + 1)))
      let idResult : Option String :=
        match ref.id with
        | some i => some i
        | Option.none => findAnchor anchors (ext.slugify title)
      match idResult with
      | Option.none => .panicked
      | some id =>
        let anchors' := anchors ++ [id]
        let events' := events.set ref.start_idx
          (Event.html ("<h" ++ decRepr ref.level ++ " id=\"" ++ id ++ "\">"))
        let insertsStep : Except String (List (Nat × Event)) :=
          if context.insertAnchor ≠ InsertAnchor.none then
            match ext.anchorTemplate id ref.level context.lang with
            | Except.error e =>
              Except.error ("Failed to render anchor link template: " ++ e)
            | Except.ok anchor_link =>
              let anchor_idx :=
                match context.insertAnchor with
                | InsertAnchor.left => ref.start_idx + 1
                | InsertAnchor.right => ref.end_idx
                | InsertAnchor.none => 0
              Except.ok (inserts ++ [(anchor_idx, Event.html anchor_link)])
          else Except.ok inserts
        match insertsStep with
        | Except.error e => .failed e
        | Except.ok inserts' =>
          let permalink := context.currentPagePermalink ++ "#" ++ id
          pass2 ext context rest events' anchors' inserts'
            (headings ++ [{ level := ref.level, id := id, permalink := permalink, title := title }])
    else .panicked

/-- Modelled from the spec: `utils::vec::InsertMany::insert_many` (component
`utils`, not in the sources): apply a batch of (index, element) insertions
whose indices were computed against the pre-insertion vector, with a running
offset so later insertion points stay correct (spec §4.3/§9). -/
def insertMany (events : List Event) (elems : List (Nat × Event)) : List Event :=
  (elems.foldl (fun (acc : List Event × Nat) p =>
    (acc.1.insertIdx (p.1 + acc.2) p.2, acc.2 + 1)) (events, 0)).1

/-- The render call's output record (markdown.rs:20-29). The HTML serializer
(`cmark::html::push_html`) is external, so `body` is the final event sequence
it would receive, and `summaryFound` is the `has_summary` flag from which the
serialized `summary_len` offset is computed externally; `toc` is the flat
heading list handed to the external `make_table_of_contents`. -/
structure Rendered where
  body : List Event
  summaryFound : Bool
  toc : List Heading
  internal_links : List (String × Option String)
  external_links : List String
deriving DecidableEq, Repr

/-- Everything `markdown_to_html` does after the forward pass
(markdown.rs:479-584): cleanup filter, optional section wrapping, the two
heading passes, the batched anchor insertion, and the final error check. -/
def finishPipeline (ext : Externals) (context : RenderContext) (s : LoopState) :
    RunResult Rendered :=
  let events₀ := cleanupEvents s.events
  let sectioned : Option (List Event) :=
    match context.markdown.render_with_section_tags with
    | Option.none => some events₀
    | some SectionTagsMode.hierarchical => makeHierarchicalSections events₀
    | some SectionTagsMode.flat => some (makeFlatSections events₀)
  match sectioned with
  | Option.none => .panicked
  | some events₁ =>
    match getHeadingRefs events₁ with
    | Option.none => .panicked
    | some heading_refs =>
      match explicitIdPass heading_refs events₁ [] with
      | Option.none => .panicked
      | some (refs', events₂, anchors) =>
        match pass2 ext context refs' events₂ anchors [] [] with
        | RunResult.panicked => .panicked
        | RunResult.failed e => .failed e
        | RunResult.ok (events₃, _, inserts, headings) =>
          let events₄ :=
            if context.insertAnchor ≠ InsertAnchor.none then insertMany events₃ inserts
            else events₃
          match s.error with
          | some e => .failed e
          | Option.none =>
            .ok { body := events₄
                  summaryFound := s.has_summary
                  toc := headings
                  internal_links := s.internal_links
                  external_links := s.external_links }

/-- The initial transformer state: the shortcode list was built in source
order, reversed, and its end popped once (markdown.rs:282-283), so the cursor
starts at the source-order head. -/
def initialState (html_shortcodes : List Shortcode) : LoopState :=
  { events := []
    error := Option.none
    code_block := false
    internal_links := []
    external_links := []
    stop_next_end_p := false
    has_summary := false
    next_shortcode := html_shortcodes.head?
    html_shortcodes := html_shortcodes.tail }

/-- `markdown_to_html` (markdown.rs:242-585) over the external parser's
(event, source-range) sequence. -/
def markdownToHtml (ext : Externals) (context : RenderContext) (content : String)
    (parsed : List (Event × Nat × Nat)) (html_shortcodes : List Shortcode) :
    RunResult Rendered :=
  match processEvents ext context content parsed (initialState html_shortcodes) with
  | Option.none => .panicked
  | some s => finishPipeline ext context s

/-- A highlight-theme registry, reduced to the set of theme names it holds
(the theme data itself is never inspected by the embedded code). -/
structure ThemeSet where
  themes : List String
deriving DecidableEq, Repr

/-- The loaded extra grammar registry (`SyntaxSet`); its contents are never
inspected by the embedded code. -/
structure GrammarSet where
  names : List String
deriving DecidableEq, Repr

/-- The two process-wide once-cells of config/src/highlighting.rs:20-21
(`EXTRA_SYNTAX_SET` as `extraGrammars`, `EXTRA_HIGHLIGHT_THEME_SET` as
`extraThemes`); `none` is an unset cell. -/
structure RegistryState where
  extraGrammars : Option GrammarSet
  extraThemes : Option ThemeSet
deriving DecidableEq, Repr

/-- The set-if-unset step of markup.rs:86-95: a loaded value is written only
when the cell is still empty (first successful load wins). -/
def setOnce {α : Type} (cell : Option α) (v : Option α) : Option α :=
  match v with
  | Option.none => cell
  | some x =>
    match cell with
    | Option.none => some x
    | some y => some y

/-- `Markdown::get_highlight_theme` (markup.rs:44-50), returning the name of
the theme found (standing for the `&Theme`); `none` models the
`EXTRA_HIGHLIGHT_THEME_SET.get().unwrap()` panic on an unset cell and the
`themes[..]` indexing panic on an absent key. `builtin` is the name set of
the built-in registry (binary data external to the sources). -/
def getHighlightTheme (builtin : List String) (st : RegistryState) (m : Markdown) :
    Option String :=
  if builtin.contains m.highlight_theme then some m.highlight_theme
  else
    match st.extraThemes with
    | Option.none => Option.none
    | some ts =>
      if ts.themes.contains m.highlight_theme then some m.highlight_theme else Option.none

/-- `init_extra_syntaxes_and_highlight_themes` (markup.rs:85-113). The two
`load_extra_*` results are I/O and arrive as parameters: `Except` for a load
error propagated by `?`, the inner `Option` for "nothing configured". -/
def initExtraHighlighting (builtin : List String)
    (loadedGrammars : Except String (Option GrammarSet))
    (loadedThemes : Except String (Option ThemeSet))
    (st : RegistryState) (m : Markdown) :
    Except String RegistryState :=
  match loadedGrammars with
  | Except.error e => Except.error e
  | Except.ok lg =>
    match loadedThemes with
    | Except.error e => Except.error e
    | Except.ok lt =>
      let st' : RegistryState :=
        { extraGrammars := setOnce st.extraGrammars lg
          extraThemes := setOnce st.extraThemes lt }
      if !(builtin.contains m.highlight_theme) then
        match st'.extraThemes with
        | some extra =>
          if !(extra.themes.contains m.highlight_theme) then
            Except.error ("Highlight theme " ++ m.highlight_theme ++
              " not found in the extra theme set")
          else Except.ok st'
        | Option.none =>
          Except.error ("Highlight theme " ++ m.highlight_theme ++ " not available.")
      else Except.ok st'

/-- A neutral configuration for concrete examples: every flag off. -/
def sampleMarkdown : Markdown :=
  { highlight_code := false
    highlight_theme := "base16-ocean-dark"
    render_emoji := false
    external_links_target_blank := false
    external_links_no_follow := false
    external_links_no_referrer := false
    smart_punctuation := false
    render_with_section_tags := Option.none }

/-- A neutral render context for concrete examples. -/
def sampleContext : RenderContext :=
  { permalinks := [("pages/about.md", "https://site.test/about/")]
    currentPagePath := some "pages/here.md"
    currentPagePermalink := "https://site.test/here/"
    markdown := sampleMarkdown
    insertAnchor := InsertAnchor.none
    lang := "en" }

/-- The id discipline of the second heading pass as the claim states it,
read off the growing used-id list: a heading with an explicit id emits it
exactly as written (never renamed, even when it duplicates another id); a
heading without one emits an id that is not in the used-id list at its point
of generation (the list then holding every explicit id and every id emitted
earlier); either way the emitted id joins the used-id list. -/
inductive FreshAssign : List String → List HeadingRef → List Heading → Prop
  | nil (anchors : List String) : FreshAssign anchors [] []
  | consExplicit (anchors : List String) (ref : HeadingRef) (refs : List HeadingRef)
      (h : Heading) (hs : List Heading) :
      ref.id = some h.id →
      FreshAssign (anchors ++ [h.id]) refs hs →
      FreshAssign anchors (ref :: refs) (h :: hs)
  | consAuto (anchors : List String) (ref : HeadingRef) (refs : List HeadingRef)
      (h : Heading) (hs : List Heading) :
      ref.id = Option.none →
      h.id ∉ anchors →
      FreshAssign (anchors ++ [h.id]) refs hs →
      FreshAssign anchors (ref :: refs) (h :: hs)

/-- Trivial external collaborators for concrete examples. -/
def sampleExternals : Externals :=
  { highlight := fun s => s
    codeBlockBegin := fun _ => "<pre><code>"
    emoji := fun s => s
    renderShortcode := fun _ => Except.ok ""
    slugify := fun s => s
    anchorTemplate := fun _ _ _ => Except.ok ""
    escapeHref := fun s => s }

/-- Events of a concrete document with three headings all titled "example"
(for the C3 example). -/
def exampleHeadingEvents : List Event :=
  [Event.start (Tag.heading 1), Event.text "example", Event.endTag (Tag.heading 1),
   Event.start (Tag.heading 1), Event.text "example", Event.endTag (Tag.heading 1),
   Event.start (Tag.heading 1), Event.text "example", Event.endTag (Tag.heading 1)]

/-- The heading refs `get_heading_refs` yields on `exampleHeadingEvents`. -/
def exampleHeadingRefs : List HeadingRef :=
  [{ start_idx := 0, end_idx := 2, level := 1, id := Option.none },
   { start_idx := 3, end_idx := 5, level := 1, id := Option.none },
   { start_idx := 6, end_idx := 8, level := 1, id := Option.none }]

theorem fromDec_append_digit (l : List Char) (c : Char) :
    fromDec (l ++ [c]) = 10 * fromDec l + (c.toNat - 48) := by
  simp [fromDec, List.foldl_append]

theorem digitChar_val (d : Nat) (h : d < 10) : (Nat.digitChar d).toNat - 48 = d := by
  interval_cases d <;> rfl

theorem fromDec_decReprAux : ∀ n fuel, n < fuel → fromDec (decReprAux fuel n) = n := by
  intro n
  induction n using Nat.strong_induction_on with
  | _ n ih =>
    intro fuel hf
    match fuel, hf with
    | f + 1, hf =>
      by_cases h10 : n < 10
      · simp [decReprAux, h10, fromDec, digitChar_val n h10]
      · have hdiv_lt : n / 10 < n := Nat.div_lt_self (by omega) (by omega)
        have hdiv_f : n / 10 < f := by omega
        rw [decReprAux]
        simp only [h10, if_false]
        rw [fromDec_append_digit, ih (n / 10) hdiv_lt f hdiv_f,
          digitChar_val (n % 10) (Nat.mod_lt _ (by omega))]
        omega

theorem decRepr_injective : Function.Injective decRepr := by
  intro m n h
  have hm : fromDec (decReprAux (m + 1) m) = m := fromDec_decReprAux m (m + 1) (Nat.lt_succ_self m)
  have hn : fromDec (decReprAux (n + 1) n) = n := fromDec_decReprAux n (n + 1) (Nat.lt_succ_self n)
  have hdata : decReprAux (m + 1) m = decReprAux (n + 1) n := congrArg String.data h
  rw [hdata, hn] at hm
  exact hm.symm

theorem anchorVariant_injective (name : String) : Function.Injective (anchorVariant name) := by
  intro k₁ k₂ h
  apply decRepr_injective
  apply String.ext
  have hdata : (anchorVariant name k₁).data = (anchorVariant name k₂).data := congrArg String.data h
  simp only [anchorVariant, String.data_append] at hdata
  exact List.append_cancel_left hdata

/-- Whatever `find_anchor` returns is never an element of the used-id list. -/
theorem findAnchorF_fresh (anchors : List String) (name : String) :
    ∀ fuel level s, findAnchorF anchors name fuel level = some s → s ∉ anchors := by
  intro fuel
  induction fuel with
  | zero => intro level s h; simp [findAnchorF] at h
  | succ f ih =>
    intro level s h
    rw [findAnchorF] at h
    by_cases h0 : (level = 0 && !(anchors.contains name)) = true
    · rw [if_pos h0] at h
      obtain ⟨-, h2⟩ := Bool.and_eq_true_iff.mp h0
      cases h
      intro hmem
      rw [Bool.not_eq_true', ← Bool.not_eq_true] at h2
      exact h2 (List.elem_iff.mpr hmem)
    · rw [if_neg h0] at h
      by_cases hfree : (!(anchors.contains (anchorVariant name ((level + 1) % 65536)))) = true
      · rw [if_pos hfree] at h
        cases h
        intro hmem
        rw [Bool.not_eq_true', ← Bool.not_eq_true] at hfree
        exact hfree (List.elem_iff.mpr hmem)
      · rw [if_neg hfree] at h
        exact ih _ s h

/-- Pigeonhole: a list of `n` ids cannot contain all of the `n + 1` distinct
variants `name-1 … name-(n+1)`. -/
theorem exists_fresh_variant (anchors : List String) (name : String) :
    ∃ k, 1 ≤ k ∧ k ≤ anchors.length + 1 ∧ anchorVariant name k ∉ anchors := by
  by_contra hall
  push_neg at hall
  have hsub : (Finset.range (anchors.length + 1)).image (fun j => anchorVariant name (j + 1))
      ⊆ anchors.toFinset := by
    intro s hs
    rw [Finset.mem_image] at hs
    obtain ⟨j, hj, rfl⟩ := hs
    rw [Finset.mem_range] at hj
    rw [List.mem_toFinset]
    exact hall (j + 1) (by omega) (by omega)
  have hinj : Function.Injective (fun j : Nat => anchorVariant name (j + 1)) := by
    intro a b hab
    have := anchorVariant_injective name hab
    omega
  have hcard : ((Finset.range (anchors.length + 1)).image
      (fun j => anchorVariant name (j + 1))).card = anchors.length + 1 := by
    rw [Finset.card_image_of_injective _ hinj, Finset.card_range]
  have h1 : anchors.length + 1 ≤ anchors.toFinset.card := by
    rw [← hcard]; exact Finset.card_le_card hsub
  have h2 : anchors.toFinset.card ≤ anchors.length := anchors.toFinset_card_le
  omega

theorem findAnchorF_total_aux (anchors : List String) (name : String) (k : Nat)
    (hk : k ≤ 65535) (hfresh : anchorVariant name k ∉ anchors) :
    ∀ fuel level, level < k → k - level ≤ fuel →
      ∃ s, findAnchorF anchors name fuel level = some s := by
  intro fuel
  induction fuel with
  | zero => intro level hlt hle; omega
  | succ f ih =>
    intro level hlt _
    rw [findAnchorF]
    by_cases h0 : (level = 0 && !(anchors.contains name)) = true
    · exact ⟨name, if_pos h0⟩
    · rw [if_neg h0]
      have hmod : (level + 1) % 65536 = level + 1 := Nat.mod_eq_of_lt (by omega)
      by_cases hfree : (!(anchors.contains (anchorVariant name ((level + 1) % 65536)))) = true
      · exact ⟨_, if_pos hfree⟩
      · rw [if_neg hfree]
        have hne : level + 1 ≠ k := by
          intro heq
          apply hfree
          rw [hmod, heq, Bool.not_eq_true', ← Bool.not_eq_true]
          intro hc
          exact hfresh (List.elem_iff.mp hc)
        rw [hmod]
        exact ih (level + 1) (by omega) (by omega)

/-- When the used-id list is small enough that the `u16` counter cannot wrap
before a fresh variant is met, `find_anchor` terminates with a fresh id. -/
theorem findAnchor_total_of_small (anchors : List String) (name : String)
    (hsmall : anchors.length + 1 < 65536) :
    ∃ s, findAnchor anchors name = some s ∧ s ∉ anchors := by
  by_cases hname : name ∈ anchors
  · obtain ⟨k, hk1, hk2, hkfresh⟩ := exists_fresh_variant anchors name
    obtain ⟨s, hs⟩ := findAnchorF_total_aux anchors name k (by omega) hkfresh
      (findAnchorFuel anchors) 0 (by omega) (by simp [findAnchorFuel]; omega)
    exact ⟨s, hs, findAnchorF_fresh anchors name _ 0 s hs⟩
  · refine ⟨name, ?_, hname⟩
    show findAnchorF anchors name (findAnchorFuel anchors) 0 = some name
    have : findAnchorFuel anchors = (findAnchorFuel anchors - 1) + 1 := by
      simp [findAnchorFuel]
    rw [this, findAnchorF, if_pos (by simp [hname])]

/-- When the name itself is unused, the very first check returns it unchanged. -/
theorem findAnchor_name_unused (anchors : List String) (name : String)
    (hname : name ∉ anchors) : findAnchor anchors name = some name := by
  show findAnchorF anchors name (findAnchorFuel anchors) 0 = some name
  have : findAnchorFuel anchors = (findAnchorFuel anchors - 1) + 1 := by
    simp [findAnchorFuel]
  rw [this, findAnchorF, if_pos (by simp [hname])]

theorem badAnchors_loops (name : String) :
    ∀ fuel level, findAnchorF (badAnchors name) name fuel level = none := by
  intro fuel
  induction fuel with
  | zero => intro level; rfl
  | succ f ih =>
    intro level
    rw [findAnchorF]
    have hname : (badAnchors name).contains name = true :=
      List.elem_iff.mpr (List.mem_cons_self _ _)
    have hvar : (badAnchors name).contains (anchorVariant name ((level + 1) % 65536)) = true := by
      apply List.elem_iff.mpr
      apply List.mem_cons_of_mem
      exact List.mem_map.mpr ⟨(level + 1) % 65536,
        List.mem_range.mpr (Nat.mod_lt _ (by omega)), rfl⟩
    rw [if_neg (by simp; intro _; exact List.mem_cons_self _ _),
      if_neg (by simp; exact List.elem_iff.mp hvar)]
    exact ih _


theorem strStartsWith_head (s : String) (c : Char) (cs : List Char)
    (h : strStartsWith s ⟨c :: cs⟩ = true) : ∃ t, s.data = c :: t := by
  rw [strStartsWith, List.isPrefixOf_iff_prefix] at h
  obtain ⟨t, ht⟩ := h
  exact ⟨cs ++ t, by rw [← ht]; simp⟩

theorem strStartsWith_false_of_head (s : String) (c d : Char) (ds : List Char) {t : List Char}
    (hne : d ≠ c) (h : s.data = c :: t) : strStartsWith s ⟨d :: ds⟩ = false := by
  simp only [strStartsWith, h, List.isPrefixOf, Bool.and_eq_false_iff]
  left
  simp [hne]

theorem isExternalLink_head {link : String} (h : isExternalLink link = true) :
    ∃ t, link.data = 'h' :: t := by
  rw [isExternalLink, Bool.or_eq_true] at h
  cases h with
  | inl h => exact strStartsWith_head link 'h' "ttp:".data h
  | inr h => exact strStartsWith_head link 'h' "ttps:".data h

theorem isExternalLink_not_marker {link : String} (h : isExternalLink link = true) :
    strStartsWith link "@/" = false ∧ strStartsWith link "#" = false := by
  obtain ⟨t, ht⟩ := isExternalLink_head h
  constructor
  · exact strStartsWith_false_of_head link 'h' '@' "/".data (by decide) ht
  · exact strStartsWith_false_of_head link 'h' '#' ([] : List Char) (by decide) ht

/-- C1: the interpolation loop is claimed to substitute every call at exactly
its byte span, advancing the remaining fragment to begin at the call's end,
so that a fragment containing two pending calls gets the correct between-call
and trailing text. The code instead executes
`range.start = sc_span.end - range.start` (markdown.rs:329/457): on the
fragment of source range [10, 30) with pending calls at spans [12, 14) and
[16, 18), the emitted between-call text is the 12 characters of source
[14, 26) instead of source [14, 16), and the trailing text is source [28, 30)
instead of [18, 30). -/
theorem claim1_shortcode_spans_misplaced :
    (renderShortcodes Event.text (fun sc => Except.ok ("[" ++ sc.name ++ "]")) (10, 30)
      "abcdefghijklmnopqrst"
      (some { name := "one", spanStart := 12, spanEnd := 14 })
      [{ name := "two", spanStart := 16, spanEnd := 18 }] [] Option.none
    = some ([Event.text "ab", Event.html "[one]", Event.text "efghijklmnop",
             Event.html "[two]", Event.text "st"], Option.none, [], Option.none))
    ∧ [Event.text "ab", Event.html "[one]", Event.text "efghijklmnop",
       Event.html "[two]", Event.text "st"]
      ≠ [Event.text "ab", Event.html "[one]", Event.text "ef",
         Event.html "[two]", Event.text "ijklmnopqrst"] := by
  constructor
  · simp [renderShortcodes, sliceTo, sliceFrom]
  · decide

/-- C2: the section wrapper is claimed to emit balanced section markers for
every input, including a heading whose level is lower than every level on the
open-section stack; in hierarchical mode that very input (an h2 followed by
an h1) empties the level stack inside the closing loop and the
`level_stack.last().unwrap()` of markdown.rs:177 panics, producing no output
at all. -/
theorem claim2_hierarchical_sections_panic :
    makeHierarchicalSections
      [Event.start (Tag.heading 2), Event.endTag (Tag.heading 2),
       Event.start (Tag.heading 1), Event.endTag (Tag.heading 1)] = Option.none := by
  simp [makeHierarchicalSections, hierLoop, closeSections]

/-- C6: link classification is a total, deterministic function of the link
string and kind: an email-kind link is returned unchanged and inventoried
nowhere; a (non-email) link with an http/https scheme is returned unchanged
and appended verbatim to the external-link inventory; any other link that
starts with neither the internal-reference marker nor a bare fragment is
returned unmodified and inventoried nowhere; and classifying the same link
twice yields the same result. -/
theorem claim6_link_classification (lt : LinkType) (link : String) (context : RenderContext)
    (il : List (String × Option String)) (el : List String) :
    (lt = LinkType.email → fixLink lt link context il el = Except.ok (link, il, el)) ∧
    (lt ≠ LinkType.email → isExternalLink link = true →
      fixLink lt link context il el = Except.ok (link, il, el ++ [link])) ∧
    (lt ≠ LinkType.email → isExternalLink link = false →
      strStartsWith link "@/" = false → strStartsWith link "#" = false →
      fixLink lt link context il el = Except.ok (link, il, el)) ∧
    fixLink lt link context il el = fixLink lt link context il el := by
  refine ⟨?_, ?_, ?_, rfl⟩
  · intro h
    simp [fixLink, h]
  · intro hne hext
    obtain ⟨hat, _⟩ := isExternalLink_not_marker hext
    simp [fixLink, hne, hat, hext]
  · intro hne hext hat hhash
    simp [fixLink, hne, hat, hext, hhash]

/-- C6 witness: the three categories at concrete links, via
`claim6_link_classification`. -/
theorem claim6_link_classification_witness :
    (fixLink LinkType.email "mailto:a@b.c" sampleContext [] []
      = Except.ok ("mailto:a@b.c", [], [])) ∧
    (fixLink LinkType.inline "https://example.com" sampleContext [] []
      = Except.ok ("https://example.com", [], ["https://example.com"])) ∧
    (fixLink LinkType.inline "local/image.png" sampleContext [] []
      = Except.ok ("local/image.png", [], [])) := by
  refine ⟨(claim6_link_classification _ _ _ _ _).1 rfl,
    ((claim6_link_classification _ _ _ _ _).2.1 (by decide) (by decide)),
    ((claim6_link_classification _ _ _ _ _).2.2.1 (by decide) (by decide) (by decide) (by decide))⟩

/-- C7: `construct_external_link_tag` produces exactly the literal format the
spec states (the attribute groups rel, target, title in this fixed order,
each omitted entirely when not applicable, rel space-joining noopener /
nofollow / noreferrer in that order), and with `no_follow` and `target_blank`
both set the output is the spec's example tag. -/
theorem claim7_external_link_tag_format (m : Markdown) (url title : String) :
    m.constructExternalLinkTag url title = externalLinkTagSpec m url title ∧
    (({ m with external_links_target_blank := true
               external_links_no_follow := true
               external_links_no_referrer := false } : Markdown).constructExternalLinkTag url ""
      = "<a rel=\"noopener nofollow\" target=\"_blank\" href=\"" ++ url ++ "\">") := by
  constructor
  · rcases m with ⟨hc, ht, re, tb, nf, nr, sp, tags⟩
    by_cases htitle : title = ""
    · subst htitle
      cases tb <;> cases nf <;> cases nr <;> rfl
    · have hne : title.isEmpty = false := by
        rw [← Bool.not_eq_true, String.isEmpty_iff]
        exact htitle
      cases tb <;> cases nf <;> cases nr <;>
        simp only [Markdown.constructExternalLinkTag, externalLinkTagSpec, hne, htitle] <;>
        rfl
  · rfl

/-- C8: if configuration validation returns Ok then the configured
highlight theme is in the built-in registry or in the loaded extra registry,
so `get_highlight_theme` on the resulting registry state cannot panic; and a
theme absent from both registries (after the set-once updates) makes
validation return an error. -/
theorem claim8_theme_validation (builtin : List String)
    (lg : Except String (Option GrammarSet)) (lt : Except String (Option ThemeSet))
    (st : RegistryState) (m : Markdown) :
    (∀ st', initExtraHighlighting builtin lg lt st m = Except.ok st' →
      (getHighlightTheme builtin st' m).isSome = true) ∧
    (∀ lg' lt', lg = Except.ok lg' → lt = Except.ok lt' →
      builtin.contains m.highlight_theme = false →
      (∀ ts, setOnce st.extraThemes lt' = some ts →
        ts.themes.contains m.highlight_theme = false) →
      ∃ e, initExtraHighlighting builtin lg lt st m = Except.error e) := by
  constructor
  · intro st' h
    rcases lg with e | lg'
    · simp [initExtraHighlighting] at h
    rcases lt with e | lt'
    · simp [initExtraHighlighting] at h
    rw [initExtraHighlighting] at h
    by_cases hb : m.highlight_theme ∈ builtin
    · simp [getHighlightTheme, hb]
    · rcases hset : setOnce st.extraThemes lt' with _ | extra
      · simp [hb, hset] at h
      · by_cases hc : m.highlight_theme ∈ extra.themes
        · simp [hb, hset, hc] at h
          subst h
          simp [getHighlightTheme, hb, hset, hc]
        · simp [hb, hset, hc] at h
  · intro lg' lt' hlg hlt hb habsent
    subst hlg
    subst hlt
    rw [initExtraHighlighting]
    have hbm : m.highlight_theme ∉ builtin := by simpa using hb
    rcases hset : setOnce st.extraThemes lt' with _ | extra
    · simp [hbm, hset]
    · have hc := habsent extra hset
      have hcm : m.highlight_theme ∉ extra.themes := by simpa using hc
      simp [hbm, hset, hcm]

/-- C8 witness: a theme present only in the loaded extra registry validates
and is found; a theme absent from both registries fails validation, via
`claim8_theme_validation`. -/
theorem claim8_theme_validation_witness :
    ((getHighlightTheme ["base16-ocean-dark"]
        { extraGrammars := Option.none, extraThemes := some { themes := ["mytheme"] } }
        { sampleMarkdown with highlight_theme := "mytheme" }).isSome = true) ∧
    (∃ e, initExtraHighlighting ["base16-ocean-dark"] (Except.ok Option.none)
      (Except.ok Option.none)
      { extraGrammars := Option.none, extraThemes := Option.none }
      { sampleMarkdown with highlight_theme := "ghost" } = Except.error e) := by
  constructor
  · exact (claim8_theme_validation ["base16-ocean-dark"] (Except.ok Option.none)
      (Except.ok (some { themes := ["mytheme"] }))
      { extraGrammars := Option.none, extraThemes := Option.none }
      { sampleMarkdown with highlight_theme := "mytheme" }).1
      { extraGrammars := Option.none, extraThemes := some { themes := ["mytheme"] } }
      rfl
  · exact (claim8_theme_validation ["base16-ocean-dark"] (Except.ok Option.none)
      (Except.ok Option.none)
      { extraGrammars := Option.none, extraThemes := Option.none }
      { sampleMarkdown with highlight_theme := "ghost" }).2
      Option.none Option.none rfl rfl (by decide) (by intro ts h; cases h)

/-- C9 counterexample: the claim says `find_anchor` terminates for *every*
finite list of used ids. Its counter is a `u16`: on a list holding the name
and all 65536 counter variants, the release-mode wrap-around makes the
recursion revisit the same candidates forever, so no recursion fuel ever
suffices — the Rust loop never returns. -/
theorem claim9_counterexample : ¬ findAnchorTerminates (badAnchors "a") "a" := by
  rintro ⟨fuel, s, hs⟩
  rw [badAnchors_loops "a" fuel 0] at hs
  exact Option.noConfusion hs

/-- C9 (amended): `find_anchor` terminates with an id outside the used-id
list whenever the list is small enough that the `u16` counter cannot wrap
before a fresh suffixed variant `name-N` is met (in particular for any list
of fewer than 65535 ids), and when the name itself is unused and the search
starts at counter 0 the name is returned unchanged. -/
theorem claim9_find_anchor_amended (anchors : List String) (name : String) :
    (anchors.length + 1 < 65536 →
      ∃ s, findAnchor anchors name = some s ∧ s ∉ anchors) ∧
    (name ∉ anchors → findAnchor anchors name = some name) := by
  exact ⟨fun h => findAnchor_total_of_small anchors name h,
    fun h => findAnchor_name_unused anchors name h⟩

/-- C9 witness: the amended theorem applied at concrete inputs — an id fresh
with respect to `["x"]` is produced for the colliding name `x`, and the
unused name `y` is returned unchanged. -/
theorem claim9_find_anchor_amended_witness :
    (∃ s, findAnchor ["x"] "x" = some s ∧ s ∉ ["x"]) ∧
    findAnchor ["x"] "y" = some "y" := by
  exact ⟨(claim9_find_anchor_amended ["x"] "x").1 (by decide),
    (claim9_find_anchor_amended ["x"] "y").2 (by decide)⟩


theorem ghrAux_cons_other {e : Event} (rest : List Event) (i : Nat) (acc : List HeadingRef)
    (hns : ∀ lvl, e ≠ Event.start (Tag.heading lvl))
    (hne : ∀ lvl, e ≠ Event.endTag (Tag.heading lvl)) :
    getHeadingRefsAux (e :: rest) i acc = getHeadingRefsAux rest (i + 1) acc := by
  cases e with
  | start t => cases t <;> first | exact absurd rfl (hns _) | rfl
  | endTag t => cases t <;> first | exact absurd rfl (hne _) | rfl
  | text s => rfl
  | html s => rfl
  | code s => rfl
  | otherEvent => rfl

theorem hwfAux_cons_other {e : Event} (rest : List Event) (inside : Bool)
    (hns : ∀ lvl, e ≠ Event.start (Tag.heading lvl))
    (hne : ∀ lvl, e ≠ Event.endTag (Tag.heading lvl)) :
    headingsWellFormedAux (e :: rest) inside = headingsWellFormedAux rest inside := by
  cases e with
  | start t => cases t <;> first | exact absurd rfl (hns _) | rfl
  | endTag t => cases t <;> first | exact absurd rfl (hne _) | rfl
  | text s => rfl
  | html s => rfl
  | code s => rfl
  | otherEvent => rfl

theorem hsi_cons_other {e : Event} (rest : List Event) (i : Nat)
    (hns : ∀ lvl, e ≠ Event.start (Tag.heading lvl)) :
    headingStartIndices (e :: rest) i = headingStartIndices rest (i + 1) := by
  cases e with
  | start t => cases t <;> first | exact absurd rfl (hns _) | rfl
  | endTag t => cases t <;> rfl
  | text s => rfl
  | html s => rfl
  | code s => rfl
  | otherEvent => rfl

theorem ghrAux_wf (es : List Event) : ∀ i : Nat,
    (∀ acc, headingsWellFormedAux es false = true →
      (∀ r ∈ acc, r.start_idx < r.end_idx ∧ r.end_idx < i) →
      ∃ Δ, getHeadingRefsAux es i acc = some (acc ++ Δ) ∧
        Δ.map HeadingRef.start_idx = headingStartIndices es i ∧
        ∀ r ∈ Δ, r.start_idx < r.end_idx ∧ r.end_idx < i + es.length) ∧
    (∀ acc₀ pending, headingsWellFormedAux es true = true →
      (∀ r ∈ acc₀, r.start_idx < r.end_idx ∧ r.end_idx < i) →
      pending.start_idx < i →
      ∃ e Δ, getHeadingRefsAux es i (acc₀ ++ [pending]) =
          some (acc₀ ++ [{ pending with end_idx := e }] ++ Δ) ∧
        i ≤ e ∧ e < i + es.length ∧
        Δ.map HeadingRef.start_idx = headingStartIndices es i ∧
        ∀ r ∈ Δ, r.start_idx < r.end_idx ∧ r.end_idx < i + es.length) := by
  induction es with
  | nil =>
    intro i
    constructor
    · intro acc _ _
      exact ⟨[], by simp [getHeadingRefsAux], by simp [headingStartIndices], by simp⟩
    · intro acc₀ pending hwf _ _
      simp [headingsWellFormedAux] at hwf
  | cons e rest ih =>
    intro i
    constructor
    · intro acc hwf hacc
      by_cases hstart : ∃ lvl, e = Event.start (Tag.heading lvl)
      · obtain ⟨lvl, rfl⟩ := hstart
        replace hwf : headingsWellFormedAux rest true = true := hwf
        obtain ⟨e', Δ, hres, hie, helt, hmap, hprops⟩ :=
          (ih (i + 1)).2 acc (HeadingRef.new i lvl) hwf
            (fun r hr => ⟨(hacc r hr).1, Nat.lt_succ_of_lt (hacc r hr).2⟩)
            (Nat.lt_succ_self i)
        refine ⟨{ HeadingRef.new i lvl with end_idx := e' } :: Δ, ?_, ?_, ?_⟩
        · show getHeadingRefsAux rest (i + 1) (acc ++ [HeadingRef.new i lvl]) = _
          rw [hres]
          simp
        · show i :: Δ.map HeadingRef.start_idx = i :: headingStartIndices rest (i + 1)
          rw [hmap]
        · intro r hr
          rcases List.mem_cons.mp hr with rfl | hr
          · exact ⟨by show i < e'; omega, by show e' < i + (rest.length + 1); omega⟩
          · have := hprops r hr
            exact ⟨this.1, by have h2 := this.2; simp only [List.length_cons]; omega⟩
      · by_cases hend : ∃ lvl, e = Event.endTag (Tag.heading lvl)
        · obtain ⟨lvl, rfl⟩ := hend
          exact absurd hwf (by simp [headingsWellFormedAux])
        · push_neg at hstart hend
          rw [hwfAux_cons_other rest false hstart hend] at hwf
          obtain ⟨Δ, hres, hmap, hprops⟩ := (ih (i + 1)).1 acc hwf
            (fun r hr => ⟨(hacc r hr).1, Nat.lt_succ_of_lt (hacc r hr).2⟩)
          refine ⟨Δ, ?_, ?_, ?_⟩
          · rw [ghrAux_cons_other rest i acc hstart hend]
            exact hres
          · rw [hsi_cons_other rest i hstart]
            exact hmap
          · intro r hr
            have := hprops r hr
            exact ⟨this.1, by have h2 := this.2; simp only [List.length_cons]; omega⟩
    · intro acc₀ pending hwf hacc hpend
      by_cases hstart : ∃ lvl, e = Event.start (Tag.heading lvl)
      · obtain ⟨lvl, rfl⟩ := hstart
        exact absurd hwf (by simp [headingsWellFormedAux])
      · by_cases hend : ∃ lvl, e = Event.endTag (Tag.heading lvl)
        · obtain ⟨lvl, rfl⟩ := hend
          replace hwf : headingsWellFormedAux rest false = true := hwf
          obtain ⟨Δ, hres, hmap, hprops⟩ :=
            (ih (i + 1)).1 (acc₀ ++ [{ pending with end_idx := i }]) hwf (by
              intro r hr
              rcases List.mem_append.mp hr with hr | hr
              · exact ⟨(hacc r hr).1, Nat.lt_succ_of_lt (hacc r hr).2⟩
              · rcases List.mem_singleton.mp hr with rfl
                exact ⟨hpend, Nat.lt_succ_self i⟩)
          refine ⟨i, Δ, ?_, le_refl i, by simp, ?_, ?_⟩
          · show (match (acc₀ ++ [pending]).getLast? with
              | Option.none => Option.none
              | some last =>
                getHeadingRefsAux rest (i + 1)
                  ((acc₀ ++ [pending]).dropLast ++ [{ last with end_idx := i }])) = _
            rw [List.getLast?_concat, List.dropLast_concat]
            simp only [hres]
          · show Δ.map HeadingRef.start_idx = headingStartIndices rest (i + 1)
            exact hmap
          · intro r hr
            have := hprops r hr
            exact ⟨this.1, by have h2 := this.2; simp only [List.length_cons]; omega⟩
        · push_neg at hstart hend
          rw [hwfAux_cons_other rest true hstart hend] at hwf
          obtain ⟨e', Δ, hres, hie, helt, hmap, hprops⟩ := (ih (i + 1)).2 acc₀ pending hwf
            (fun r hr => ⟨(hacc r hr).1, Nat.lt_succ_of_lt (hacc r hr).2⟩)
            (Nat.lt_succ_of_lt hpend)
          refine ⟨e', Δ, ?_, by omega, by simp only [List.length_cons]; omega, ?_, ?_⟩
          · rw [ghrAux_cons_other rest i (acc₀ ++ [pending]) hstart hend]
            exact hres
          · rw [hsi_cons_other rest i hstart]
            exact hmap
          · intro r hr
            have := hprops r hr
            exact ⟨this.1, by have h2 := this.2; simp only [List.length_cons]; omega⟩

/-- C10: under the parser guarantee that heading start and end events
strictly alternate and pair up, `get_heading_refs` is total (the
"Heading end before start?" panic is unreachable) and returns exactly one
record per heading, in document order (the start indices are exactly the
positions of the heading-start events), with `start_idx < end_idx` and
`end_idx` within bounds — so the `end_idx - 1` access of the explicit-id
pass is in bounds as well. -/
theorem claim10_heading_refs_wellformed (events : List Event)
    (h : headingsWellFormed events = true) :
    ∃ refs, getHeadingRefs events = some refs ∧
      refs.map HeadingRef.start_idx = headingStartIndices events 0 ∧
      ∀ r ∈ refs, r.start_idx < r.end_idx ∧ r.end_idx < events.length := by
  obtain ⟨Δ, hres, hmap, hprops⟩ := (ghrAux_wf events 0).1 [] h (by simp)
  refine ⟨Δ, by simpa [getHeadingRefs] using hres, hmap, ?_⟩
  intro r hr
  have := hprops r hr
  exact ⟨this.1, by have h2 := this.2; omega⟩

/-- C10 witness: `claim10_heading_refs_wellformed` at a concrete well-formed
document with two headings. -/
theorem claim10_heading_refs_wellformed_witness :
    ∃ refs, getHeadingRefs
        [Event.start (Tag.heading 1), Event.text "A", Event.endTag (Tag.heading 1),
         Event.otherEvent, Event.start (Tag.heading 2), Event.endTag (Tag.heading 2)]
      = some refs ∧
      refs.map HeadingRef.start_idx =
        headingStartIndices
          [Event.start (Tag.heading 1), Event.text "A", Event.endTag (Tag.heading 1),
           Event.otherEvent, Event.start (Tag.heading 2), Event.endTag (Tag.heading 2)] 0 ∧
      ∀ r ∈ refs, r.start_idx < r.end_idx ∧ r.end_idx <
        [Event.start (Tag.heading 1), Event.text "A", Event.endTag (Tag.heading 1),
         Event.otherEvent, Event.start (Tag.heading 2), Event.endTag (Tag.heading 2)].length :=
  claim10_heading_refs_wellformed _ (by decide)

theorem explicitIdStep_spec (events : List Event) (anchors : List String) (ref : HeadingRef)
    (events' : List Event) (anchors' : List String) (ref' : HeadingRef)
    (h : explicitIdStep events anchors ref = some (events', anchors', ref')) :
    (anchors' = anchors ∧ ref' = ref) ∨
    (∃ x, anchors' = anchors ++ [x] ∧ ref' = { ref with id := some x }) := by
  unfold explicitIdStep at h
  split at h
  · cases h
  · split at h
    · cases h
    · split at h
      · split at h
        · cases h
          exact Or.inr ⟨_, rfl, rfl⟩
        · cases h
          exact Or.inl ⟨rfl, rfl⟩
      · cases h
        exact Or.inl ⟨rfl, rfl⟩
    · cases h
      exact Or.inl ⟨rfl, rfl⟩

theorem explicitIdPass_anchors : ∀ (refs : List HeadingRef) (events : List Event)
    (anchors : List String) (refs' : List HeadingRef) (events' : List Event)
    (anchors' : List String),
    (∀ r ∈ refs, r.id = Option.none) →
    explicitIdPass refs events anchors = some (refs', events', anchors') →
    anchors' = anchors ++ refs'.filterMap HeadingRef.id := by
  intro refs
  induction refs with
  | nil =>
    intro events anchors refs' events' anchors' _ h
    rw [explicitIdPass] at h
    cases h
    simp
  | cons ref rest ih =>
    intro events anchors refs' events' anchors' hnone h
    rw [explicitIdPass] at h
    cases hstep : explicitIdStep events anchors ref with
    | none => rw [hstep] at h; cases h
    | some out =>
      obtain ⟨events₁, anchors₁, ref₁⟩ := out
      rw [hstep] at h
      simp only [] at h
      cases hrec : explicitIdPass rest events₁ anchors₁ with
      | none => rw [hrec] at h; cases h
      | some out2 =>
        obtain ⟨rest', events₂, anchors₂⟩ := out2
        rw [hrec] at h
        cases h
        have ihh := ih events₁ anchors₁ rest' _ _
          (fun r hr => hnone r (List.mem_cons_of_mem _ hr)) hrec
        rcases explicitIdStep_spec events anchors ref events₁ anchors₁ ref₁ hstep with
          ⟨rfl, rfl⟩ | ⟨x, rfl, rfl⟩
        · rw [ihh, List.filterMap_cons, hnone _ (List.mem_cons_self _ _)]
        · rw [ihh, List.filterMap_cons]
          simp

theorem pass2_fresh (ext : Externals) (context : RenderContext) :
    ∀ (refs : List HeadingRef) (events : List Event) (anchors : List String)
      (inserts : List (Nat × Event)) (headings : List Heading)
      (events' : List Event) (anchors' : List String) (inserts' : List (Nat × Event))
      (headings' : List Heading),
      pass2 ext context refs events anchors inserts headings =
        RunResult.ok (events', anchors', inserts', headings') →
      ∃ Δ, headings' = headings ++ Δ ∧ FreshAssign anchors refs Δ := by
  intro refs
  induction refs with
  | nil =>
    intro events anchors inserts headings events' anchors' inserts' headings' h
    rw [pass2] at h
    cases h
    exact ⟨[], by simp, FreshAssign.nil anchors⟩
  | cons ref rest ih =>
    intro events anchors inserts headings events' anchors' inserts' headings' h
    rw [pass2] at h
    split at h
    case isFalse => cases h
    case isTrue hb =>
      simp only [] at h
      rcases href : ref.id with _ | i
      · rw [href] at h
        rcases hfa : findAnchor anchors
            (ext.slugify (getText
              ((events.drop (ref.start_idx + 1)).take (ref.end_idx - (ref.start_idx + 1))))) with
          _ | id
        · rw [hfa] at h
          cases h
        · rw [hfa] at h
          simp only [] at h
          split at h
          case h_1 e heq => cases h
          case h_2 inserts₁ heq =>
            obtain ⟨Δ, hΔ, hfresh⟩ := ih _ _ _ _ _ _ _ _ h
            refine ⟨_, by rw [hΔ, ← List.append_cons], ?_⟩
            exact FreshAssign.consAuto anchors ref rest _ Δ href
              (findAnchorF_fresh anchors _ _ 0 id hfa) hfresh
      · rw [href] at h
        simp only [] at h
        split at h
        case h_1 e heq => cases h
        case h_2 inserts₁ heq =>
          obtain ⟨Δ, hΔ, hfresh⟩ := ih _ _ _ _ _ _ _ _ h
          refine ⟨_, by rw [hΔ, ← List.append_cons], ?_⟩
          exact FreshAssign.consExplicit anchors ref rest _ Δ href hfresh

/-- C3: heading-id resolution never renames an explicit id (a heading whose
ref carries `some id` emits exactly that id, duplicates included), the used-id
list handed to the auto-generation pass is exactly the explicit ids collected
by the first pass, and every auto-generated id is produced by `find_anchor`
against the whole used set, hence distinct from all explicit ids of the
document and from every id emitted earlier. -/
theorem claim3_anchor_uniqueness (ext : Externals) (context : RenderContext)
    (refs refs' : List HeadingRef) (events events₂ : List Event) (anchors : List String)
    (events₃ : List Event) (anchors' : List String) (inserts : List (Nat × Event))
    (headings : List Heading)
    (hnone : ∀ r ∈ refs, r.id = Option.none)
    (h1 : explicitIdPass refs events [] = some (refs', events₂, anchors))
    (h2 : pass2 ext context refs' events₂ anchors [] [] =
      RunResult.ok (events₃, anchors', inserts, headings)) :
    anchors = refs'.filterMap HeadingRef.id ∧ FreshAssign anchors refs' headings := by
  constructor
  · have := explicitIdPass_anchors refs events [] refs' events₂ anchors hnone h1
    simpa using this
  · obtain ⟨Δ, hΔ, hfresh⟩ := pass2_fresh ext context refs' events₂ anchors [] []
      events₃ anchors' inserts headings h2
    rw [hΔ]
    simpa using hfresh

/-- C3 witness: three headings all titled "example" resolve to the ids
`example`, `example-1`, `example-2`, the disambiguation checked against the
whole used set, via `claim3_anchor_uniqueness`. -/
theorem claim3_anchor_uniqueness_witness :
    explicitIdPass exampleHeadingRefs exampleHeadingEvents [] =
      some (exampleHeadingRefs, exampleHeadingEvents, []) ∧
    pass2 sampleExternals sampleContext exampleHeadingRefs exampleHeadingEvents [] [] [] =
      RunResult.ok
        ([Event.html "<h1 id=\"example\">", Event.text "example", Event.endTag (Tag.heading 1),
          Event.html "<h1 id=\"example-1\">", Event.text "example", Event.endTag (Tag.heading 1),
          Event.html "<h1 id=\"example-2\">", Event.text "example", Event.endTag (Tag.heading 1)],
         ["example", "example-1", "example-2"], [],
         [{ level := 1, id := "example", permalink := "https://site.test/here/#example",
            title := "example" },
          { level := 1, id := "example-1", permalink := "https://site.test/here/#example-1",
            title := "example" },
          { level := 1, id := "example-2", permalink := "https://site.test/here/#example-2",
            title := "example" }]) ∧
    ([] : List String) = exampleHeadingRefs.filterMap HeadingRef.id ∧
    FreshAssign [] exampleHeadingRefs
      [{ level := 1, id := "example", permalink := "https://site.test/here/#example",
         title := "example" },
       { level := 1, id := "example-1", permalink := "https://site.test/here/#example-1",
         title := "example" },
       { level := 1, id := "example-2", permalink := "https://site.test/here/#example-2",
         title := "example" }] ∧
    ["example", "example-1", "example-2"].map id = ["example", "example-1", "example-2"] := by
  refine ⟨rfl, by decide, rfl, ?_, rfl⟩
  exact (claim3_anchor_uniqueness sampleExternals sampleContext
    exampleHeadingRefs exampleHeadingRefs exampleHeadingEvents exampleHeadingEvents []
    [Event.html "<h1 id=\"example\">", Event.text "example", Event.endTag (Tag.heading 1),
     Event.html "<h1 id=\"example-1\">", Event.text "example", Event.endTag (Tag.heading 1),
     Event.html "<h1 id=\"example-2\">", Event.text "example", Event.endTag (Tag.heading 1)]
    ["example", "example-1", "example-2"] []
    [{ level := 1, id := "example", permalink := "https://site.test/here/#example",
       title := "example" },
     { level := 1, id := "example-1", permalink := "https://site.test/here/#example-1",
       title := "example" },
     { level := 1, id := "example-2", permalink := "https://site.test/here/#example-2",
       title := "example" }]
    (by decide) rfl (by decide)).2
theorem renderShortcodes_error_mono (mk : String → Event) (render : Shortcode → Except String String) :
    ∀ (n : Nat) (range : Nat × Nat) (new_text : String) (next : Option Shortcode)
      (stack : List Shortcode) (events : List Event) (error : Option String)
      (out : List Event × Option Shortcode × List Shortcode × Option String),
      next.toList.length + stack.length ≤ n →
      renderShortcodes mk render range new_text next stack events error = some out →
      error.isSome = true → out.2.2.2.isSome = true := by
  intro n
  induction n with
  | zero =>
    intro range nt next stack events error out hle h herr
    match next with
    | Option.none =>
      rw [renderShortcodes] at h
      cases h
      exact herr
    | some sc => simp at hle
  | succ n ih =>
    intro range nt next stack events error out hle h herr
    match next with
    | Option.none =>
      rw [renderShortcodes] at h
      cases h
      exact herr
    | some sc =>
      rw [renderShortcodes] at h
      by_cases hin : range.1 ≤ sc.spanStart ∧ sc.spanStart < range.2
      · rw [if_pos hin] at h
        simp only [] at h
        rcases hpre : (if range.1 ≠ sc.spanStart then
            match sliceTo nt (sc.spanStart - range.1) with
            | Option.none => Option.none
            | some p => some (events ++ [mk p])
          else some events) with _ | events₁
        · rw [hpre] at h
          cases h
        · rw [hpre] at h
          simp only [] at h
          rcases hren : render sc with e | sres
          · rw [hren] at h
            simp only [] at h
            cases h
            rfl
          · rw [hren] at h
            simp only [] at h
            rcases hslice : sliceFrom nt (sc.spanEnd - range.1) with _ | rest
            · rw [hslice] at h
              cases h
            · rw [hslice] at h
              simp only [] at h
              refine ih _ _ _ _ _ _ _ ?_ h herr
              have hle' : 1 + stack.length ≤ n + 1 := by simpa using hle
              match stack with
              | [] => simp
              | a :: t =>
                simp only [List.length_cons] at hle'
                show 1 + t.length ≤ n
                omega
      · rw [if_neg hin] at h
        cases h
        exact herr
theorem scArm_error_mono (mk : String → Event) (render : Shortcode → Except String String)
    (range : Nat × Nat) (txt : String) (s s' : LoopState)
    (h : (match renderShortcodes mk render range txt s.next_shortcode s.html_shortcodes
            s.events s.error with
          | Option.none => Option.none
          | some (events', next', stack', error') =>
            some { s with events := events'
                          next_shortcode := next'
                          html_shortcodes := stack'
                          error := error' }) = some s')
    (hs : s.error.isSome = true) : s'.error.isSome = true := by
  rcases hr : renderShortcodes mk render range txt s.next_shortcode s.html_shortcodes
      s.events s.error with _ | out
  · rw [hr] at h
    cases h
  · rw [hr] at h
    obtain ⟨e1, e2, e3, e4⟩ := out
    simp only [] at h
    cases h
    exact renderShortcodes_error_mono _ _ _ _ _ _ _ _ _ _ (le_refl _) hr hs

theorem processEvent_error_mono (ext : Externals) (context : RenderContext) (content : String)
    (s : LoopState) (ev : Event) (a b : Nat) (s' : LoopState)
    (h : processEvent ext context content s ev (a, b) = some s')
    (hs : s.error.isSome = true) : s'.error.isSome = true := by
  match ev with
  | Event.text text =>
    simp only [processEvent] at h
    by_cases hcb : s.code_block = true
    · rw [if_pos hcb] at h
      cases h
      exact hs
    · rw [if_neg hcb] at h
      by_cases hcs : (!containsShortcode
          (if context.markdown.render_emoji = true then ext.emoji text else text)) = true
      · rw [if_pos hcs] at h
        cases h
        exact hs
      · rw [if_neg hcs] at h
        exact scArm_error_mono _ _ _ _ s s' h hs
  | Event.html text =>
    simp only [processEvent] at h
    by_cases hsm : containsSub text "<!-- more -->" = true
    · rw [if_pos hsm] at h
      cases h
      exact hs
    · rw [if_neg hsm] at h
      by_cases hcs : (!containsShortcode text) = true
      · rw [if_pos hcs] at h
        cases h
        exact hs
      · rw [if_neg hcs] at h
        exact scArm_error_mono _ _ _ _ s s' h hs
  | Event.start (Tag.codeBlock info) =>
    simp only [processEvent] at h
    cases h
    exact hs
  | Event.endTag (Tag.codeBlock info) =>
    simp only [processEvent] at h
    cases h
    exact hs
  | Event.start (Tag.link lt link title) =>
    simp only [processEvent] at h
    by_cases hemp : link = ""
    · rw [if_pos hemp] at h
      cases h
      rfl
    · rw [if_neg hemp] at h
      rcases hfix : fixLink lt link context s.internal_links s.external_links with e | out
      · rw [hfix] at h
        simp only [] at h
        cases h
        rfl
      · rw [hfix] at h
        obtain ⟨fixed, il, el⟩ := out
        simp only [] at h
        cases h
        exact hs
  | Event.start Tag.paragraph =>
    simp only [processEvent] at h
    rcases hns : s.next_shortcode with _ | sc
    · rw [hns] at h
      simp only [] at h
      cases h
      exact hs
    · rw [hns] at h
      simp only [] at h
      by_cases hst : sc.spanStart = a
      · rw [if_pos hst] at h
        rcases hsl : sliceRange content a b with _ | frag
        · rw [hsl] at h
          cases h
        · rw [hsl] at h
          simp only [] at h
          by_cases hlen : sc.spanEnd - sc.spanStart = (trimChars frag.data).length
          · rw [if_pos hlen] at h
            cases h
            exact hs
          · rw [if_neg hlen] at h
            cases h
            exact hs
      · rw [if_neg hst] at h
        cases h
        exact hs
  | Event.endTag Tag.paragraph =>
    simp only [processEvent] at h
    by_cases hp : s.stop_next_end_p = true
    · rw [if_pos hp] at h
      cases h
      exact hs
    · rw [if_neg hp] at h
      cases h
      exact hs
  | Event.start (Tag.heading lvl) =>
    simp only [processEvent] at h
    cases h
    exact hs
  | Event.start Tag.other =>
    simp only [processEvent] at h
    cases h
    exact hs
  | Event.endTag (Tag.heading lvl) =>
    simp only [processEvent] at h
    cases h
    exact hs
  | Event.endTag (Tag.link lt link title) =>
    simp only [processEvent] at h
    cases h
    exact hs
  | Event.endTag Tag.other =>
    simp only [processEvent] at h
    cases h
    exact hs
  | Event.code c =>
    simp only [processEvent] at h
    cases h
    exact hs
  | Event.otherEvent =>
    simp only [processEvent] at h
    cases h
    exact hs
theorem processEvents_append (ext : Externals) (context : RenderContext) (content : String) :
    ∀ (xs ys : List (Event × Nat × Nat)) (s : LoopState),
      processEvents ext context content (xs ++ ys) s =
        match processEvents ext context content xs s with
        | Option.none => Option.none
        | some s' => processEvents ext context content ys s' := by
  intro xs
  induction xs with
  | nil => intro ys s; rfl
  | cons p rest ih =>
    intro ys s
    obtain ⟨e, a, b⟩ := p
    rw [List.cons_append, processEvents, processEvents]
    rcases hp : processEvent ext context content s e (a, b) with _ | s₁
    · simp only []
    · simp only []
      exact ih ys s₁

theorem processEvents_error_mono (ext : Externals) (context : RenderContext) (content : String) :
    ∀ (xs : List (Event × Nat × Nat)) (s s' : LoopState),
      processEvents ext context content xs s = some s' →
      s.error.isSome = true → s'.error.isSome = true := by
  intro xs
  induction xs with
  | nil =>
    intro s s' h hs
    cases h
    exact hs
  | cons p rest ih =>
    intro s s' h hs
    obtain ⟨e, a, b⟩ := p
    rw [processEvents] at h
    rcases hp : processEvent ext context content s e (a, b) with _ | s₁
    · rw [hp] at h
      cases h
    · rw [hp] at h
      simp only [] at h
      exact ih s₁ s' h (processEvent_error_mono ext context content s e a b s₁ hp hs)
theorem pass2_not_failed (ext : Externals) (context : RenderContext)
    (hin : context.insertAnchor = InsertAnchor.none) :
    ∀ (refs : List HeadingRef) (events : List Event) (anchors : List String)
      (inserts : List (Nat × Event)) (headings : List Heading) (e : String),
      pass2 ext context refs events anchors inserts headings ≠ RunResult.failed e := by
  intro refs
  induction refs with
  | nil =>
    intro events anchors inserts headings e h
    rw [pass2] at h
    cases h
  | cons ref rest ih =>
    intro events anchors inserts headings e h
    rw [pass2] at h
    split at h
    case isFalse => cases h
    case isTrue hb =>
      simp only [] at h
      rcases href : ref.id with _ | i
      · rw [href] at h
        rcases hfa : findAnchor anchors
            (ext.slugify (getText
              ((events.drop (ref.start_idx + 1)).take (ref.end_idx - (ref.start_idx + 1))))) with
          _ | id
        · rw [hfa] at h
          cases h
        · rw [hfa] at h
          simp only [hin] at h
          exact ih _ _ _ _ _ h
      · rw [href] at h
        simp only [hin] at h
        exact ih _ _ _ _ _ h

theorem finishPipeline_cases (ext : Externals) (context : RenderContext) (s : LoopState)
    (e : String) (he : s.error = some e) :
    (finishPipeline ext context s = RunResult.panicked ∨
      ∃ e', finishPipeline ext context s = RunResult.failed e') ∧
    (context.insertAnchor = InsertAnchor.none →
      finishPipeline ext context s = RunResult.panicked ∨
      finishPipeline ext context s = RunResult.failed e) := by
  rw [finishPipeline]
  simp only []
  rcases hsec : (match context.markdown.render_with_section_tags with
    | Option.none => some (cleanupEvents s.events)
    | some SectionTagsMode.hierarchical => makeHierarchicalSections (cleanupEvents s.events)
    | some SectionTagsMode.flat => some (makeFlatSections (cleanupEvents s.events))) with _ | events₁
  · rw [hsec]
    exact ⟨Or.inl rfl, fun _ => Or.inl rfl⟩
  · rw [hsec]
    simp only []
    rcases hrefs : getHeadingRefs events₁ with _ | heading_refs
    · exact ⟨Or.inl rfl, fun _ => Or.inl rfl⟩
    · simp only []
      rcases hpass1 : explicitIdPass heading_refs events₁ [] with _ | out1
      · exact ⟨Or.inl rfl, fun _ => Or.inl rfl⟩
      · obtain ⟨refs', events₂, anchors⟩ := out1
        simp only []
        rcases hpass2 : pass2 ext context refs' events₂ anchors [] [] with _ | e' | out2
        · exact ⟨Or.inl rfl, fun _ => Or.inl rfl⟩
        · exact ⟨Or.inr ⟨e', rfl⟩,
            fun hin => absurd hpass2 (pass2_not_failed ext context hin _ _ _ _ _ _)⟩
        · obtain ⟨events₃, anchors', inserts, headings⟩ := out2
          simp only [he]
          constructor
          · right
            exact ⟨e, by simp⟩
          · intro _
            right
            simp

theorem markdownToHtml_not_ok (ext : Externals) (context : RenderContext) (content : String)
    (parsed : List (Event × Nat × Nat)) (scs : List Shortcode)
    (hbad : ∀ sf, processEvents ext context content parsed (initialState scs) = some sf →
      sf.error.isSome = true) :
    ∀ r, markdownToHtml ext context content parsed scs ≠ RunResult.ok r := by
  intro r h
  rw [markdownToHtml] at h
  rcases hp : processEvents ext context content parsed (initialState scs) with _ | sf
  · rw [hp] at h
    cases h
  · rw [hp] at h
    simp only [] at h
    obtain ⟨e, he⟩ := Option.isSome_iff_exists.mp (hbad sf hp)
    rcases (finishPipeline_cases ext context sf e he).1 with hpan | ⟨e', hfail⟩
    · rw [hpan] at h
      cases h
    · rw [hfail] at h
      cases h

/-- C5: a link event with an empty URL records an error and the render call
ultimately returns an error, but the pass is not aborted at that event: the
link is emitted with the placeholder target "#", every following event is
still processed (the fold continues on the post-error state), and — when no
anchor templates can interfere — the error returned is exactly the recorded
one unless a later pipeline stage panics first. -/
theorem claim5_missing_url_soft_error (ext : Externals) (context : RenderContext)
    (content : String) (lt : LinkType) (title : String) (a b : Nat)
    (pre post : List (Event × Nat × Nat)) (scs : List Shortcode) (s : LoopState) :
    (processEvent ext context content s (Event.start (Tag.link lt "" title)) (a, b) =
      some { s with error := some "There is a link that is missing a URL"
                    events := s.events ++ [Event.start (Tag.link lt "#" title)] }) ∧
    (processEvents ext context content pre (initialState scs) = some s →
      processEvents ext context content
          (pre ++ (Event.start (Tag.link lt "" title), a, b) :: post) (initialState scs) =
        processEvents ext context content post
          { s with error := some "There is a link that is missing a URL"
                   events := s.events ++ [Event.start (Tag.link lt "#" title)] }) ∧
    (∀ r, markdownToHtml ext context content
        (pre ++ (Event.start (Tag.link lt "" title), a, b) :: post) scs ≠ RunResult.ok r) ∧
    (context.insertAnchor = InsertAnchor.none →
      ∀ sf e, processEvents ext context content
          (pre ++ (Event.start (Tag.link lt "" title), a, b) :: post) (initialState scs) =
            some sf →
        sf.error = some e →
        markdownToHtml ext context content
            (pre ++ (Event.start (Tag.link lt "" title), a, b) :: post) scs =
          RunResult.panicked ∨
        markdownToHtml ext context content
            (pre ++ (Event.start (Tag.link lt "" title), a, b) :: post) scs =
          RunResult.failed e) := by
  refine ⟨rfl, ?_, ?_, ?_⟩
  · intro hpre
    rw [processEvents_append, hpre]
    rfl
  · apply markdownToHtml_not_ok
    intro sf hp
    rw [processEvents_append] at hp
    rcases hpre2 : processEvents ext context content pre (initialState scs) with _ | s1
    · rw [hpre2] at hp
      cases hp
    · rw [hpre2] at hp
      simp only [] at hp
      rw [processEvents] at hp
      have hstep : processEvent ext context content s1
          (Event.start (Tag.link lt "" title)) (a, b) =
        some { s1 with error := some "There is a link that is missing a URL"
                       events := s1.events ++ [Event.start (Tag.link lt "#" title)] } := rfl
      rw [hstep] at hp
      simp only [] at hp
      exact processEvents_error_mono ext context content post _ sf hp rfl
  · intro hin sf e hp he
    rw [markdownToHtml, hp]
    simp only []
    exact (finishPipeline_cases ext context sf e he).2 hin

/-- C5 witness: `claim5_missing_url_soft_error` at a concrete two-event
document; the render returns exactly the recorded error while the event after
the broken link was still processed. -/
theorem claim5_missing_url_soft_error_witness :
    (processEvent sampleExternals sampleContext "" (initialState [])
        (Event.start (Tag.link LinkType.inline "" "")) (0, 0) =
      some { initialState [] with
              error := some "There is a link that is missing a URL"
              events := [Event.start (Tag.link LinkType.inline "#" "")] }) ∧
    markdownToHtml sampleExternals sampleContext ""
        [(Event.start (Tag.link LinkType.inline "" ""), 0, 0), (Event.text "hi", 0, 0)] [] =
      RunResult.failed "There is a link that is missing a URL" := by
  have hthm := claim5_missing_url_soft_error sampleExternals sampleContext "" LinkType.inline ""
    0 0 [] [(Event.text "hi", 0, 0)] [] (initialState [])
  refine ⟨hthm.1, ?_⟩
  rcases hthm.2.2.2 rfl _ "There is a link that is missing a URL" rfl rfl with h | h
  · exact absurd h (by decide)
  · exact h

theorem internal_not_external {link : String} (hat : strStartsWith link "@/" = true) :
    isExternalLink link = false := by
  obtain ⟨t, ht⟩ := strStartsWith_head link '@' "/".data hat
  rw [isExternalLink,
    strStartsWith_false_of_head link '@' 'h' "ttp:".data (by decide) ht,
    strStartsWith_false_of_head link '@' 'h' "ttps:".data (by decide) ht]
  rfl

/-- C4: an internal-reference link (`@/` prefix) whose target is absent from
the permalink table records the error "Relative link {link} not found." —
naming the offending link text — and the render call never returns Ok; when
the lookup succeeds, the link event is rewritten to the resolved permalink
and the (document path, optional anchor) pair is appended to the
internal-link inventory. -/
theorem claim4_internal_link_resolution (ext : Externals) (context : RenderContext)
    (content : String) (lt : LinkType) (link title : String) (a b : Nat)
    (pre post : List (Event × Nat × Nat)) (scs : List Shortcode) (s : LoopState)
    (hlt : lt ≠ LinkType.email) (hat : strStartsWith link "@/" = true) (hne : link ≠ "") :
    (resolveInternalLink link context.permalinks = Option.none →
      processEvent ext context content s (Event.start (Tag.link lt link title)) (a, b) =
        some { s with error := some ("Relative link " ++ link ++ " not found.")
                      events := s.events ++ [Event.html ""] }) ∧
    (resolveInternalLink link context.permalinks = Option.none →
      ∀ r, markdownToHtml ext context content
          (pre ++ (Event.start (Tag.link lt link title), a, b) :: post) scs ≠
        RunResult.ok r) ∧
    (∀ res, resolveInternalLink link context.permalinks = some res →
      processEvent ext context content s (Event.start (Tag.link lt link title)) (a, b) =
        some { s with internal_links := s.internal_links ++ [(res.md_path, res.anchor)]
                      events := s.events ++ [Event.start (Tag.link lt res.permalink title)] }) := by
  have hfixErr : resolveInternalLink link context.permalinks = Option.none →
      ∀ il el, fixLink lt link context il el =
        Except.error ("Relative link " ++ link ++ " not found.") := by
    intro hres il el
    rw [fixLink, if_neg hlt, if_pos hat, hres]
  have hfixOk : ∀ res, resolveInternalLink link context.permalinks = some res →
      ∀ il el, fixLink lt link context il el =
        Except.ok (res.permalink, il ++ [(res.md_path, res.anchor)], el) := by
    intro res hres il el
    rw [fixLink, if_neg hlt, if_pos hat, hres]
  refine ⟨?_, ?_, ?_⟩
  · intro hres
    simp only [processEvent]
    rw [if_neg hne, hfixErr hres]
  · intro hres r
    apply markdownToHtml_not_ok
    intro sf hp
    rw [processEvents_append] at hp
    rcases hpre2 : processEvents ext context content pre (initialState scs) with _ | s1
    · rw [hpre2] at hp
      cases hp
    · rw [hpre2] at hp
      simp only [] at hp
      rw [processEvents] at hp
      have hstep : processEvent ext context content s1
          (Event.start (Tag.link lt link title)) (a, b) =
        some { s1 with error := some ("Relative link " ++ link ++ " not found.")
                       events := s1.events ++ [Event.html ""] } := by
        simp only [processEvent]
        rw [if_neg hne, hfixErr hres]
      rw [hstep] at hp
      simp only [] at hp
      exact processEvents_error_mono ext context content post _ sf hp rfl
  · intro res hres
    simp only [processEvent]
    rw [if_neg hne, hfixOk res hres]
    simp only [internal_not_external hat, Bool.false_and, Bool.false_eq_true, if_false]

/-- C4 witness: `claim4_internal_link_resolution` at concrete links against
the sample permalink table — a missing target records the naming error and
the render cannot succeed; a present target is rewritten to its permalink and
inventoried with its anchor. -/
theorem claim4_internal_link_resolution_witness :
    (processEvent sampleExternals sampleContext "" (initialState [])
        (Event.start (Tag.link LinkType.inline "@/missing.md" "")) (0, 0) =
      some { initialState [] with
              error := some "Relative link @/missing.md not found."
              events := [Event.html ""] }) ∧
    markdownToHtml sampleExternals sampleContext ""
        [(Event.start (Tag.link LinkType.inline "@/missing.md" ""), 0, 0)] [] ≠
      RunResult.ok { body := [], summaryFound := false, toc := [],
                     internal_links := [], external_links := [] } ∧
    (processEvent sampleExternals sampleContext "" (initialState [])
        (Event.start (Tag.link LinkType.inline "@/pages/about.md#intro" "")) (0, 0) =
      some { initialState [] with
              internal_links := [("pages/about.md", some "intro")]
              events := [Event.start (Tag.link LinkType.inline
                "https://site.test/about/#intro" "")] }) := by
  refine ⟨?_, ?_, ?_⟩
  · exact (claim4_internal_link_resolution sampleExternals sampleContext "" LinkType.inline
      "@/missing.md" "" 0 0 [] [] [] (initialState [])
      (by decide) (by decide) (by decide)).1 rfl
  · exact (claim4_internal_link_resolution sampleExternals sampleContext "" LinkType.inline
      "@/missing.md" "" 0 0 [] [] [] (initialState [])
      (by decide) (by decide) (by decide)).2.1 rfl _
  · exact (claim4_internal_link_resolution sampleExternals sampleContext "" LinkType.inline
      "@/pages/about.md#intro" "" 0 0 [] [] [] (initialState [])
      (by decide) (by decide) (by decide)).2.2 _ rfl

end Zola
